import Mathlib

/-!
# Verification of the stbi-sharp decode facade (src/libstbi/src/stbi.cpp)

A shallow embedding of the C++ decode facade in `src/libstbi/src/stbi.cpp`.

Modelling conventions:
* `unsigned char` buffers are `List Byte` with `Byte := Fin 256`; byte reads
  out of a buffer (`bytes[i]`) are `byteAt`, returning the value as a `Nat`.
* `float` buffers are `List ℝ` (real-number model of the IEEE arithmetic).
* C loops that write through a pointer are embedded as a sequence of
  index/value writes applied to the destination list (`writeSeq`), built
  from nested `List.range` iterations mirroring the loop structure.
* The two process-wide globals `g_should_flip_vertically` and `g_used_qoi`
  form the explicit state `GState`, threaded through every function that
  reads or writes them.
* The external delegate codec (stb_image, whose body is not part of the
  facade) is an abstract environment `StbEnv` of its entry points.
* Heap effects of the facade are tracked as counts of internally allocated
  and internally freed pixel buffers (`allocs`/`frees` in `Eff`/`BufEff`).
-/

namespace StbiSharp

/-- A byte, as stored in an `unsigned char` buffer. -/
abbrev Byte := Fin 256

/-- Read `bytes[i]` as a natural number (out-of-range reads default to 0;
all embedded code guards reads by prior length checks, as the C does). -/
def byteAt (bs : List Byte) (i : Nat) : Nat := (bs.getD i 0).val

/-- Reduce a natural number to a byte, the way assignment to an
`unsigned char` wraps modulo 256. -/
def toByte (n : Nat) : Byte := ⟨n % 256, Nat.mod_lt n (by norm_num)⟩

/-- Apply a sequence of `dst[i] = v` writes, in order, to a list.
This is the embedding of a C loop nest writing through a pointer. -/
def writeSeq {α : Type} (dst : List α) (ws : List (Nat × α)) : List α :=
  ws.foldl (fun d p => d.set p.1 p.2) dst

/-! ## QOI format constants and header decoding

`QOI_HEADER_SIZE`, `qoi_padding`, `QOI_MAGIC`, `QOI_PIXELS_MAX` and
`QOI_LINEAR` are fixed constants of the QOI container format, defined in
the vendored `qoi.h` (not under src/) and fixed by the QOI specification:
a 14-byte header, 8 bytes of end-of-stream padding, the ASCII magic
`"qoif"` read big-endian, a 400-million-pixel cap, and colorspace tag 1
for linear. -/

def QOI_HEADER_SIZE : Nat := 14

/-- `sizeof(qoi_padding)`: the 8-byte end-of-stream marker. -/
def QOI_PADDING_SIZE : Nat := 8

/-- Big-endian 32-bit value of the ASCII bytes `q`, `o`, `i`, `f`. -/
def QOI_MAGIC : Nat := 113 * 2 ^ 24 + 111 * 2 ^ 16 + 105 * 2 ^ 8 + 102

def QOI_PIXELS_MAX : Nat := 400000000

/-- Colorspace tag value meaning "linear, not sRGB-encoded". -/
def QOI_LINEAR : Nat := 1

/-- The `qoi_desc` header record: width, height, channels, colorspace. -/
structure qoi_desc where
  width : Nat
  height : Nat
  channels : Nat
  colorspace : Nat
deriving DecidableEq

/-- `qoi_read_32`: read a big-endian `u32` from `bytes` at offset `p`. -/
def qoi_read_32 (bytes : List Byte) (p : Nat) : Nat :=
  byteAt bytes p * 2 ^ 24 + byteAt bytes (p + 1) * 2 ^ 16 +
    byteAt bytes (p + 2) * 2 ^ 8 + byteAt bytes (p + 3)

/-- `is_qoi(data, len)`: `len >= 4 && strncmp(data, "qoif", 4) == 0`. -/
def is_qoi (data : List Byte) : Bool :=
  decide (data.length ≥ 4 ∧ byteAt data 0 = 113 ∧ byteAt data 1 = 111 ∧
    byteAt data 2 = 105 ∧ byteAt data 3 = 102)

/-- `qoi_decode_header` (stbi.cpp lines 30-61): checks the buffer is at
least header plus padding long, reads magic (offset 0), width (offset 4),
height (offset 8), channels (byte 12) and colorspace (byte 13), and
validates them.  Returns the filled `qoi_desc` on success in place of the
C `bool` + out-parameter pair. -/
def qoi_decode_header (data : List Byte) : Option qoi_desc :=
  if data.length < QOI_HEADER_SIZE + QOI_PADDING_SIZE then
    none
  else if qoi_read_32 data 4 = 0 ∨ qoi_read_32 data 8 = 0 ∨
      byteAt data 12 < 3 ∨ byteAt data 12 > 4 ∨
      byteAt data 13 > 1 ∨
      qoi_read_32 data 0 ≠ QOI_MAGIC ∨
      qoi_read_32 data 8 ≥ QOI_PIXELS_MAX / qoi_read_32 data 4 then
    none
  else
    some ⟨qoi_read_32 data 4, qoi_read_32 data 8, byteAt data 12, byteAt data 13⟩

/-- `is_linear_qoi`: header decodes and its colorspace tag is `QOI_LINEAR`. -/
def is_linear_qoi (data : List Byte) : Bool :=
  match qoi_decode_header data with
  | none => false
  | some desc => decide (desc.colorspace = QOI_LINEAR)

/-! ## The external QOI pixel-stream decoder

Modelled from the spec: §4.2 delegates pixel expansion to "the QOI
pixel-stream decoder (external, byte-exact to the QOI specification)";
its source (the vendored `qoi.h`) is not under src/.  The model follows
the QOI specification's reference decoder: argument validation, header
decoding identical to `qoi_decode_header` above, then one pixel per
iteration driven by run-length state and the RGB/RGBA/INDEX/DIFF/LUMA/RUN
chunk op-codes, producing `width * height` pixels of `channels` (3 or 4)
bytes each. -/

/-- One RGBA pixel of the QOI decoder state; components are byte values,
kept below 256 by explicit `% 256` wherever `unsigned char` wraps. -/
structure Rgba where
  r : Nat
  g : Nat
  b : Nat
  a : Nat
deriving DecidableEq

/-- `QOI_COLOR_HASH`: `r*3 + g*5 + b*7 + a*11`. -/
def qoi_color_hash (c : Rgba) : Nat := c.r * 3 + c.g * 5 + c.b * 7 + c.a * 11

/-- Running state of the QOI pixel decoder: the 64-entry seen-pixel index,
the previous pixel, the pending run length, and the read position. -/
structure QoiDecState where
  index : List Rgba
  px : Rgba
  run : Nat
  p : Nat

/-- One iteration of the QOI decode loop: either consume a pending run, or
read the next chunk (when `p < chunks_len`) and update pixel, position and
the seen-pixel index. -/
def qoi_step (bytes : List Byte) (chunks_len : Nat) (s : QoiDecState) : QoiDecState :=
  if s.run > 0 then
    { s with run := s.run - 1 }
  else if s.p < chunks_len then
    let b1 := byteAt bytes s.p
    let p1 := s.p + 1
    -- new pixel, new run, new position, per chunk op-code
    let next : Rgba × Nat × Nat :=
      if b1 = 254 then -- QOI_OP_RGB
        (⟨byteAt bytes p1, byteAt bytes (p1 + 1), byteAt bytes (p1 + 2), s.px.a⟩, 0, p1 + 3)
      else if b1 = 255 then -- QOI_OP_RGBA
        (⟨byteAt bytes p1, byteAt bytes (p1 + 1), byteAt bytes (p1 + 2),
          byteAt bytes (p1 + 3)⟩, 0, p1 + 4)
      else if b1 / 64 = 0 then -- QOI_OP_INDEX
        (s.index.getD b1 ⟨0, 0, 0, 0⟩, 0, p1)
      else if b1 / 64 = 1 then -- QOI_OP_DIFF: each delta is two bits, bias -2
        (⟨(s.px.r + b1 / 16 % 4 + 254) % 256, (s.px.g + b1 / 4 % 4 + 254) % 256,
          (s.px.b + b1 % 4 + 254) % 256, s.px.a⟩, 0, p1)
      else if b1 / 64 = 2 then -- QOI_OP_LUMA: vg = (b1 & 0x3f) - 32, dr/db biased -8
        let b2 := byteAt bytes p1
        (⟨(s.px.r + b1 % 64 + b2 / 16 + 216) % 256, (s.px.g + b1 % 64 + 224) % 256,
          (s.px.b + b1 % 64 + b2 % 16 + 216) % 256, s.px.a⟩, 0, p1 + 1)
      else -- QOI_OP_RUN
        (s.px, b1 % 64, p1)
    { index := s.index.set (qoi_color_hash next.1 % 64) next.1,
      px := next.1, run := next.2.1, p := next.2.2 }
  else
    s

/-- The QOI decode loop over the remaining pixel count, emitting 3 or 4
bytes per pixel. -/
def qoi_decode_loop (bytes : List Byte) (chunks_len channels : Nat) :
    Nat → QoiDecState → List Byte
  | 0, _ => []
  | n + 1, s =>
    let s1 := qoi_step bytes chunks_len s
    (if channels = 4 then
      [toByte s1.px.r, toByte s1.px.g, toByte s1.px.b, toByte s1.px.a]
    else
      [toByte s1.px.r, toByte s1.px.g, toByte s1.px.b]) ++
      qoi_decode_loop bytes chunks_len channels n s1

/-- `qoi_decode(data, size, desc, channels)`: rejects `channels` outside
`{0, 3, 4}` and invalid headers; otherwise decodes `width * height` pixels
at `channels` output channels (0 meaning the header's native count). -/
def qoi_decode (data : List Byte) (channels : Nat) :
    Option (qoi_desc × List Byte) :=
  if channels ≠ 0 ∧ channels ≠ 3 ∧ channels ≠ 4 then
    none
  else
    match qoi_decode_header data with
    | none => none
    | some desc =>
      let ch := if channels = 0 then desc.channels else channels
      let chunks_len := data.length - QOI_PADDING_SIZE
      some (desc, qoi_decode_loop data chunks_len ch (desc.width * desc.height)
        ⟨List.replicate 64 ⟨0, 0, 0, 0⟩, ⟨0, 0, 0, 255⟩, 0, QOI_HEADER_SIZE⟩)

/-! ## Process-wide state and the delegate codec interface -/

/-- The two process-wide globals of stbi.cpp:
`g_should_flip_vertically` and `g_used_qoi` (both default `false`). -/
structure GState where
  flip : Bool
  used_qoi : Bool
deriving DecidableEq

/-- Interface of the external delegate raster codec (stb_image; its body is
out of scope per spec §1/§6 and not part of the facade): memory info query,
8-bit and float memory loads (taking the desired channel count), the native
HDR test, and the codec's current last-error text. -/
structure StbEnv where
  info : List Byte → Option (Nat × Nat × Nat)
  load : List Byte → Nat → Option (Nat × Nat × Nat × List Byte)
  loadf : List Byte → Nat → Option (Nat × Nat × Nat × List ℝ)
  is_hdr : List Byte → Bool
  failure_reason : String

/-- Result of a successful `load_from_memory`: the values written to the
`w` / `h` / `n_channels` out-parameters, and the pixel buffer. -/
structure LoadResult (α : Type) where
  w : Nat
  h : Nat
  n_channels : Nat
  pixels : List α
deriving DecidableEq

/-- Effect of a facade call: its return value, the global state on exit,
and how many internal pixel buffers it allocated and freed. -/
structure Eff (α : Type) where
  result : α
  state : GState
  allocs : Nat
  frees : Nat
deriving DecidableEq

/-! ## Vertical flip and LDR-to-float promotion -/

/-- The writes performed by `flip_vertically`'s loop nest: for each row `y`,
column `x` and channel `c`, write source element
`y * stride_y + x * n + c` to `target_y * stride_y + x * n + c` with
`target_y = height - y - 1` and `stride_y = width * n_channels`. -/
def flipWrites {α : Type} [Inhabited α] (src : List α)
    (width height n_channels : Nat) : List (Nat × α) :=
  (List.range height).flatMap fun y =>
    (List.range width).flatMap fun x =>
      (List.range n_channels).map fun c =>
        ((height - y - 1) * (width * n_channels) + x * n_channels + c,
          src.getD (y * (width * n_channels) + x * n_channels + c) default)

/-- `flip_vertically` (stbi.cpp lines 74-85), element-type generic as the
C++ template is. -/
def flip_vertically {α : Type} [Inhabited α] (dst src : List α)
    (width height n_channels : Nat) : List α :=
  writeSeq dst (flipWrites src width height n_channels)

/-- `srgb_to_linear` (stbi.cpp lines 87-93), over real numbers in place of
`float`. -/
noncomputable def srgb_to_linear (srgb : ℝ) : ℝ :=
  if srgb ≤ 0.04045 then srgb / 12.92 else ((srgb + 0.055) / 1.055) ^ (2.4 : ℝ)

/-- `n_non_alpha` as computed by `srgb_int_to_linear_float`. -/
def n_non_alpha (n_channels : Nat) : Nat :=
  if n_channels = 1 ∨ n_channels = 3 then n_channels else n_channels - 1

/-- The writes of `srgb_int_to_linear_float`: a first loop pushing every
color channel of every pixel through `srgb_to_linear`, then (when an alpha
channel exists) a second loop copying the last channel as `raw / 255`. -/
noncomputable def srgbWrites (src : List Byte) (width height n_channels : Nat) :
    List (Nat × ℝ) :=
  ((List.range (width * height)).flatMap fun i =>
    (List.range (n_non_alpha n_channels)).map fun c =>
      (i * n_channels + c,
        srgb_to_linear ((byteAt src (i * n_channels + c) : ℝ) / 255))) ++
  (if n_non_alpha n_channels < n_channels then
    (List.range (width * height)).map fun i =>
      (i * n_channels + (n_channels - 1),
        (byteAt src (i * n_channels + (n_channels - 1)) : ℝ) / 255)
  else [])

/-- `srgb_int_to_linear_float` (stbi.cpp lines 95-107); `dst` is the
destination buffer the C writes into. -/
noncomputable def srgb_int_to_linear_float (dst : List ℝ) (src : List Byte)
    (width height n_channels : Nat) : List ℝ :=
  writeSeq dst (srgbWrites src width height n_channels)

/-- The writes of `linear_int_to_linear_float`: one loop over all
`width * height * n_channels` elements writing `src[i] / 255`. -/
noncomputable def linearWrites (src : List Byte) (width height n_channels : Nat) :
    List (Nat × ℝ) :=
  (List.range (width * height * n_channels)).map fun i =>
    (i, (byteAt src i : ℝ) / 255)

/-- `linear_int_to_linear_float` (stbi.cpp lines 109-113). -/
noncomputable def linear_int_to_linear_float (dst : List ℝ) (src : List Byte)
    (width height n_channels : Nat) : List ℝ :=
  writeSeq dst (linearWrites src width height n_channels)

/-! ## The decode facade -/

/-- `is_hdr_from_memory` (stbi.cpp lines 115-121). -/
def is_hdr_from_memory (env : StbEnv) (data : List Byte) : Bool :=
  if is_qoi data then false else env.is_hdr data

/-- `load_from_memory<unsigned char>` (stbi.cpp lines 126-157): sniff QOI
vs delegate, decode, then (if the flip global is set) allocate a second
buffer of `w * h * n_returned_channels` elements, flip into it and free
the first.  It reads `g_should_flip_vertically` and writes no global. -/
def load_from_memory_u8 (env : StbEnv) (data : List Byte) (n_desired_channels : Nat)
    (s : GState) : Eff (Option (LoadResult Byte)) :=
  let loaded : Option (LoadResult Byte) :=
    if is_qoi data then
      match qoi_decode data n_desired_channels with
      | none => none
      | some (desc, px) => some ⟨desc.width, desc.height, desc.channels, px⟩
    else
      match env.load data n_desired_channels with
      | none => none
      | some (w, h, c, px) => some ⟨w, h, c, px⟩
  match loaded with
  | none => ⟨none, s, 0, 0⟩
  | some r =>
    if s.flip then
      let n_ret := if n_desired_channels = 0 then r.n_channels else n_desired_channels
      ⟨some { r with pixels :=
          flip_vertically (List.replicate (r.w * r.h * n_ret) 0) r.pixels r.w r.h n_ret },
        s, 2, 1⟩
    else
      ⟨some r, s, 1, 0⟩

/-- `load_from_memory<float>` (stbi.cpp lines 159-200): native HDR sources
go through the delegate float loader (plus optional flip); LDR sources are
loaded as 8-bit and promoted, through `linear_int_to_linear_float` when the
input is a linear-tagged QOI image and through `srgb_int_to_linear_float`
otherwise, into a fresh `w * h * n_returned_channels` float buffer, after
which the 8-bit temporary is freed. -/
noncomputable def load_from_memory_f (env : StbEnv) (data : List Byte)
    (n_desired_channels : Nat) (s : GState) : Eff (Option (LoadResult ℝ)) :=
  if is_hdr_from_memory env data then
    match env.loadf data n_desired_channels with
    | none => ⟨none, s, 0, 0⟩
    | some (w, h, c, px) =>
      if s.flip then
        let n_ret := if n_desired_channels = 0 then c else n_desired_channels
        ⟨some ⟨w, h, c,
            flip_vertically (List.replicate (w * h * n_ret) 0) px w h n_ret⟩, s, 2, 1⟩
      else
        ⟨some ⟨w, h, c, px⟩, s, 1, 0⟩
  else
    let e := load_from_memory_u8 env data n_desired_channels s
    match e.result with
    | none => ⟨none, e.state, e.allocs, e.frees⟩
    | some r =>
      let n_ret := if n_desired_channels = 0 then r.n_channels else n_desired_channels
      let dst0 : List ℝ := List.replicate (r.w * r.h * n_ret) 0
      let px : List ℝ :=
        if is_linear_qoi data then
          linear_int_to_linear_float dst0 r.pixels r.w r.h n_ret
        else
          srgb_int_to_linear_float dst0 r.pixels r.w r.h n_ret
      ⟨some ⟨r.w, r.h, r.n_channels, px⟩, e.state, e.allocs + 1, e.frees + 1⟩

/-- `memcpy(dst, src, count * sizeof(T))` as element-wise copy of the first
`count` elements. -/
def mem_cpy {α : Type} [Inhabited α] (dst src : List α) (count : Nat) : List α :=
  writeSeq dst ((List.range count).map fun i => (i, src.getD i default))

/-- Result of an into-buffer call: the returned flag, the caller's
destination buffer after the call, the global state on exit, and the
internal allocation and free counts. -/
structure BufEff (α : Type) where
  ok : Bool
  dst : List α
  state : GState
  allocs : Nat
  frees : Nat
deriving DecidableEq

/-- `load_from_memory_info_buffer<T>` (stbi.cpp lines 202-230): save the
flip global and clear it, run `load_from_memory<T>` (abstracted as the
`loadT` parameter, as the template parameter is), restore the flip global,
and on success flip or copy the temporary into the caller's `dst`.
The temporary buffer is not freed before returning. -/
def load_from_memory_info_buffer {α : Type} [Inhabited α]
    (loadT : GState → Eff (Option (LoadResult α)))
    (n_desired_channels : Nat) (dst : List α) (s : GState) : BufEff α :=
  let needs_flipping := s.flip
  let e := loadT { s with flip := false }
  let s2 : GState := { e.state with flip := needs_flipping }
  match e.result with
  | none => ⟨false, dst, s2, e.allocs, e.frees⟩
  | some r =>
    let n_channels := if n_desired_channels ≠ 0 then n_desired_channels else r.n_channels
    if needs_flipping then
      ⟨true, flip_vertically dst r.pixels r.w r.h n_channels, s2, e.allocs, e.frees⟩
    else
      ⟨true, mem_cpy dst r.pixels (r.w * r.h * n_channels), s2, e.allocs, e.frees⟩

/-- `info_from_memory` (stbi.cpp lines 232-252): sets `g_used_qoi` from the
sniffer before the header query can fail, then queries the QOI header or
the delegate codec. -/
def info_from_memory (env : StbEnv) (data : List Byte) (s : GState) :
    Option (Nat × Nat × Nat) × GState :=
  if is_qoi data then
    let s1 : GState := { s with used_qoi := true }
    match qoi_decode_header data with
    | none => (none, s1)
    | some desc => (some (desc.width, desc.height, desc.channels), s1)
  else
    let s1 : GState := { s with used_qoi := false }
    (env.info data, s1)

/-- Exported `LoadFromMemoryIntoBuffer` (stbi.cpp line 255). -/
def LoadFromMemoryIntoBuffer (env : StbEnv) (data : List Byte)
    (n_desired_channels : Nat) (dst : List Byte) (s : GState) : BufEff Byte :=
  load_from_memory_info_buffer
    (fun t => load_from_memory_u8 env data n_desired_channels t)
    n_desired_channels dst s

/-- Exported `LoadFFromMemoryIntoBuffer` (stbi.cpp line 259). -/
noncomputable def LoadFFromMemoryIntoBuffer (env : StbEnv) (data : List Byte)
    (n_desired_channels : Nat) (dst : List ℝ) (s : GState) : BufEff ℝ :=
  load_from_memory_info_buffer
    (fun t => load_from_memory_f env data n_desired_channels t)
    n_desired_channels dst s

/-- Exported `SetFlipVerticallyOnLoad` (stbi.cpp line 279). -/
def SetFlipVerticallyOnLoad (should_flip : Bool) (s : GState) : GState :=
  { s with flip := should_flip }

/-- Exported `FailureReason` (stbi.cpp lines 287-293): the fixed generic
string when the last codec recorded was QOI, else the delegate codec's own
last-error text. -/
def FailureReason (env : StbEnv) (s : GState) : String :=
  if s.used_qoi then "unknown" else env.failure_reason

/-! ## Concrete fixtures for witnesses and counterexamples -/

/-- A concrete delegate-codec environment: recognizes nothing, with a
distinctive last-error text. -/
def env0 : StbEnv :=
  ⟨fun _ => none, fun _ _ => none, fun _ _ => none, fun _ => false, "stb delegate error"⟩

/-- A complete 26-byte QOI file: magic `qoif`, width 1, height 1,
3 channels, linear colorspace, one `QOI_OP_RGB` chunk with pixel
(10, 20, 30), then the 8 padding bytes. -/
def qoiLin : List Byte :=
  [113, 111, 105, 102, 0, 0, 0, 1, 0, 0, 0, 1, 3, 1,
    254, 10, 20, 30, 0, 0, 0, 0, 0, 0, 0, 1]

/-- The result of an unflipped 8-bit decode of `qoiLin`. -/
def qoiR : LoadResult Byte := ⟨1, 1, 3, [10, 20, 30]⟩

/-- Just the 4 magic bytes `qoif`: sniffed as QOI, but too short to
decode. -/
def qoif4 : List Byte := [113, 111, 105, 102]

/-! ## Write-sequence and index lemmas -/

theorem writeSeq_nil {α : Type} (dst : List α) : writeSeq dst [] = dst := rfl

theorem writeSeq_cons {α : Type} (dst : List α) (p : Nat × α) (ws : List (Nat × α)) :
    writeSeq dst (p :: ws) = writeSeq (dst.set p.1 p.2) ws := rfl

theorem writeSeq_append {α : Type} (dst : List α) (a b : List (Nat × α)) :
    writeSeq dst (a ++ b) = writeSeq (writeSeq dst a) b :=
  List.foldl_append _ _ a b

theorem writeSeq_length {α : Type} (dst : List α) (ws : List (Nat × α)) :
    (writeSeq dst ws).length = dst.length := by
  induction ws generalizing dst with
  | nil => rfl
  | cons p t ih => rw [writeSeq_cons, ih, List.length_set]

theorem getD_set_ne {α : Type} (l : List α) (i j : Nat) (a d : α) (h : i ≠ j) :
    (l.set i a).getD j d = l.getD j d := by
  rw [List.getD_eq_getD_get?, List.getD_eq_getD_get?, List.get?_set_ne a l h]

theorem getD_set_self {α : Type} (l : List α) (i : Nat) (a d : α) (h : i < l.length) :
    (l.set i a).getD i d = a := by
  rw [List.getD_eq_getD_get?, List.get?_set_eq_of_lt a h]
  rfl

/-- A write sequence that never touches index `i` leaves `dst[i]` alone. -/
theorem writeSeq_getD_of_not_mem {α : Type} (dst : List α) (ws : List (Nat × α))
    (i : Nat) (d : α) (h : ∀ p ∈ ws, p.1 ≠ i) :
    (writeSeq dst ws).getD i d = dst.getD i d := by
  induction ws generalizing dst with
  | nil => rfl
  | cons q t ih =>
    rw [writeSeq_cons, ih _ (fun p hp => h p (List.mem_cons_of_mem q hp)),
      getD_set_ne _ _ _ _ _ (h q (List.mem_cons_self q t))]

/-- If every write that a write sequence makes to index `i` writes the value
`v`, and at least one such write occurs, then the result holds `v` at `i`. -/
theorem writeSeq_getD_of_writes {α : Type} (dst : List α) (ws : List (Nat × α))
    (i : Nat) (v d : α) (hlen : i < dst.length)
    (hex : ∃ p ∈ ws, p.1 = i) (hall : ∀ p ∈ ws, p.1 = i → p.2 = v) :
    (writeSeq dst ws).getD i d = v := by
  induction ws generalizing dst with
  | nil => obtain ⟨p, hp, _⟩ := hex; exact absurd hp (List.not_mem_nil p)
  | cons q t ih =>
    rw [writeSeq_cons]
    by_cases hqt : ∃ p ∈ t, p.1 = i
    · exact ih _ ((List.length_set dst q.1 q.2).symm ▸ hlen) hqt
        (fun p hp => hall p (List.mem_cons_of_mem q hp))
    · have hq1 : q.1 = i := by
        obtain ⟨p, hp, hpi⟩ := hex
        rcases List.mem_cons.mp hp with h | h
        · exact h ▸ hpi
        · exact absurd ⟨p, h, hpi⟩ hqt
      have hq2 : q.2 = v := hall q (List.mem_cons_self q t) hq1
      rw [writeSeq_getD_of_not_mem _ _ _ _ (fun p hp hpi => hqt ⟨p, hp, hpi⟩), hq1, hq2,
        getD_set_self _ _ _ _ hlen]

/-- Flat-index bound: pixel `i` of `P`, channel `c` of `n` lies below `P * n`. -/
theorem index_lt {i c P n : Nat} (hi : i < P) (hc : c < n) : i * n + c < P * n := by
  calc i * n + c < i * n + n := by omega
  _ = (i + 1) * n := by ring
  _ ≤ P * n := Nat.mul_le_mul_right n hi

/-- Base-`n` positional uniqueness for two-digit flat indices. -/
theorem mul_add_inj {n a b c d : Nat} (hc : c < n) (hd : d < n)
    (h : a * n + c = b * n + d) : a = b ∧ c = d := by
  have hn : 0 < n := by omega
  have hcd : c = d := by
    have h1 : (a * n + c) % n = c % n := by rw [Nat.mul_comm a n]; exact Nat.mul_add_mod n a c
    have h2 : (b * n + d) % n = d % n := by rw [Nat.mul_comm b n]; exact Nat.mul_add_mod n b d
    rw [Nat.mod_eq_of_lt hc] at h1
    rw [Nat.mod_eq_of_lt hd] at h2
    rw [← h1, ← h2, h]
  refine ⟨?_, hcd⟩
  have hab : a * n = b * n := by omega
  exact Nat.eq_of_mul_eq_mul_right (by omega) hab

/-- Three-digit positional uniqueness for flat pixel indices
`row * (w * n) + col * n + chan`. -/
theorem pos_inj {w n A B x y c d : Nat} (hx : x < w) (hy : y < w) (hc : c < n) (hd : d < n)
    (h : A * (w * n) + x * n + c = B * (w * n) + y * n + d) : A = B ∧ x = y ∧ c = d := by
  have e1 : (A * w + x) * n + c = A * (w * n) + x * n + c := by
    rw [Nat.add_mul, Nat.mul_assoc]
  have e2 : (B * w + y) * n + d = B * (w * n) + y * n + d := by
    rw [Nat.add_mul, Nat.mul_assoc]
  have h' : (A * w + x) * n + c = (B * w + y) * n + d := by rw [e1, e2]; exact h
  obtain ⟨h1, h2⟩ := mul_add_inj hc hd h'
  obtain ⟨h3, h4⟩ := mul_add_inj hx hy h1
  exact ⟨h3, h4, h2⟩

/-- Decomposition of a flat pixel index into row, column and channel. -/
theorem pos_decomp {w n h i : Nat} (hi : i < h * (w * n)) (hw : 0 < w) (hn : 0 < n) :
    ∃ y x c, y < h ∧ x < w ∧ c < n ∧ i = y * (w * n) + x * n + c := by
  have hwn : 0 < w * n := Nat.mul_pos hw hn
  refine ⟨i / (w * n), (i % (w * n)) / n, (i % (w * n)) % n, ?_, ?_, ?_, ?_⟩
  · exact (Nat.div_lt_iff_lt_mul hwn).mpr hi
  · exact (Nat.div_lt_iff_lt_mul hn).mpr (Nat.mod_lt i hwn)
  · exact Nat.mod_lt _ hn
  · rw [Nat.add_assoc, Nat.div_add_mod' (i % (w * n)) n, Nat.div_add_mod' i (w * n)]

/-- Length of the decode loop's output: 3 or 4 bytes per remaining pixel. -/
theorem qoi_decode_loop_length (bytes : List Byte) (chunks_len channels : Nat) :
    ∀ (n : Nat) (s : QoiDecState),
      (qoi_decode_loop bytes chunks_len channels n s).length =
        n * (if channels = 4 then 4 else 3) := by
  intro n
  induction n with
  | zero => intro s; simp [qoi_decode_loop]
  | succ k ih =>
    intro s
    rw [qoi_decode_loop, List.length_append, ih]
    by_cases h : channels = 4 <;> simp [h] <;> ring

/-! ## Characterization of the flip transform -/

/-- Bound for a row/column/channel flat index. -/
theorem flat_index_lt {w n h A x c : Nat} (hA : A < h) (hx : x < w) (hc : c < n) :
    A * (w * n) + x * n + c < h * (w * n) := by
  have h1 : A * w + x < h * w := index_lt hA hx
  have h2 : (A * w + x) * n + c < h * w * n := index_lt h1 hc
  calc A * (w * n) + x * n + c = (A * w + x) * n + c := by ring
  _ < h * w * n := h2
  _ = h * (w * n) := by ring

/-- `flip_vertically` writes source row `y` to destination row
`h - y - 1`, element by element. -/
theorem flip_getD {α : Type} [Inhabited α] (dst src : List α) (w h n y x c : Nat)
    (d : α) (hy : y < h) (hx : x < w) (hc : c < n)
    (hdst : h * (w * n) ≤ dst.length) (hsrc : h * (w * n) ≤ src.length) :
    (flip_vertically dst src w h n).getD ((h - y - 1) * (w * n) + x * n + c) d =
      src.getD (y * (w * n) + x * n + c) d := by
  have hsidx : y * (w * n) + x * n + c < h * (w * n) := flat_index_lt hy hx hc
  have hkey : (flip_vertically dst src w h n).getD ((h - y - 1) * (w * n) + x * n + c) d =
      src.getD (y * (w * n) + x * n + c) default := by
    apply writeSeq_getD_of_writes
    · exact lt_of_lt_of_le (flat_index_lt (by omega) hx hc) hdst
    · refine ⟨((h - y - 1) * (w * n) + x * n + c,
        src.getD (y * (w * n) + x * n + c) default), ?_, rfl⟩
      simp only [flipWrites, List.mem_flatMap, List.mem_map, List.mem_range]
      exact ⟨y, hy, x, hx, c, hc, rfl⟩
    · intro p hp hpi
      simp only [flipWrites, List.mem_flatMap, List.mem_map, List.mem_range] at hp
      obtain ⟨y1, hy1, x1, hx1, c1, hc1, rfl⟩ := hp
      simp only at hpi ⊢
      obtain ⟨hA, hX, hC⟩ := pos_inj hx1 hx hc1 hc hpi
      have hyy : y1 = y := by omega
      rw [hyy, hX, hC]
  rw [hkey, List.getD_eq_getElem _ _ (lt_of_lt_of_le hsidx hsrc),
    List.getD_eq_getElem _ _ (lt_of_lt_of_le hsidx hsrc)]

/-- Flipping twice restores the original buffer. -/
theorem flip_flip {α : Type} [Inhabited α] (d1 d2 src : List α) (w h n : Nat)
    (h1 : d1.length = h * (w * n)) (h2 : d2.length = h * (w * n))
    (hs : src.length = h * (w * n)) :
    flip_vertically d2 (flip_vertically d1 src w h n) w h n = src := by
  have hb : (flip_vertically d1 src w h n).length = h * (w * n) := by
    rw [flip_vertically, writeSeq_length, h1]
  have hl : (flip_vertically d2 (flip_vertically d1 src w h n) w h n).length =
      src.length := by
    rw [flip_vertically, writeSeq_length, h2, hs]
  apply List.ext_getElem hl
  intro i hi1 hi2
  have hi : i < h * (w * n) := hs ▸ hi2
  have hpos : 0 < h * (w * n) := lt_of_le_of_lt (Nat.zero_le i) hi
  have hw : 0 < w := by
    rcases Nat.eq_zero_or_pos w with rfl | hw
    · simp at hpos
    · exact hw
  have hn : 0 < n := by
    rcases Nat.eq_zero_or_pos n with rfl | hn
    · simp at hpos
    · exact hn
  obtain ⟨y, x, c, hy, hx, hc, rfl⟩ := pos_decomp hi hw hn
  rw [← List.getD_eq_getElem _ default hi1, ← List.getD_eq_getElem _ default hi2]
  have hy2 : h - 1 - y < h := by omega
  have e1 : y * (w * n) + x * n + c = (h - (h - 1 - y) - 1) * (w * n) + x * n + c := by
    have : h - (h - 1 - y) - 1 = y := by omega
    rw [this]
  calc (flip_vertically d2 (flip_vertically d1 src w h n) w h n).getD
        (y * (w * n) + x * n + c) default
      = (flip_vertically d1 src w h n).getD ((h - 1 - y) * (w * n) + x * n + c)
          default := by
        rw [e1]
        exact flip_getD d2 _ w h n (h - 1 - y) x c default hy2 hx hc (le_of_eq h2.symm)
          (le_of_eq hb.symm)
  _ = src.getD (y * (w * n) + x * n + c) default := by
        have e2 : h - 1 - y = h - y - 1 := by omega
        rw [e2]
        exact flip_getD d1 src w h n y x c default hy hx hc (le_of_eq h1.symm)
          (le_of_eq hs.symm)

/-- C9: the vertical flip transform copies row `y` of the source into row
`height - 1 - y` of the destination with row stride `width * channels`,
for any element type (the C++ template covers both `u8` and `f32`);
consequently applying the flip twice to any buffer reproduces the
original buffer exactly. -/
theorem c9_flip_involution {α : Type} [Inhabited α] (w h n : Nat) :
    (∀ (dst src : List α) (d : α) (y x c : Nat), y < h → x < w → c < n →
        h * (w * n) ≤ dst.length → h * (w * n) ≤ src.length →
        (flip_vertically dst src w h n).getD ((h - y - 1) * (w * n) + x * n + c) d =
          src.getD (y * (w * n) + x * n + c) d) ∧
    (∀ (d1 d2 src : List α), d1.length = h * (w * n) → d2.length = h * (w * n) →
        src.length = h * (w * n) →
        flip_vertically d2 (flip_vertically d1 src w h n) w h n = src) :=
  ⟨fun dst src d y x c hy hx hc hdst hsrc =>
      flip_getD dst src w h n y x c d hy hx hc hdst hsrc,
    fun d1 d2 src h1 h2 hs => flip_flip d1 d2 src w h n h1 h2 hs⟩

/-- Witness for C9 on a concrete 2-row, 1-column, 3-channel byte buffer. -/
theorem c9_flip_involution_witness :
    (flip_vertically (List.replicate 6 (0 : Byte)) [1, 2, 3, 4, 5, 6] 1 2 3).getD
        ((2 - 0 - 1) * (1 * 3) + 0 * 3 + 0) 0 =
      [(1 : Byte), 2, 3, 4, 5, 6].getD (0 * (1 * 3) + 0 * 3 + 0) 0 ∧
    flip_vertically (List.replicate 6 (0 : Byte))
        (flip_vertically (List.replicate 6 (0 : Byte)) [1, 2, 3, 4, 5, 6] 1 2 3) 1 2 3 =
      [(1 : Byte), 2, 3, 4, 5, 6] :=
  ⟨(c9_flip_involution 1 2 3).1 (List.replicate 6 0) [1, 2, 3, 4, 5, 6] 0 0 0 0
      (by decide) (by decide) (by decide) (by decide) (by decide),
    (c9_flip_involution 1 2 3).2 (List.replicate 6 0) (List.replicate 6 0)
      [1, 2, 3, 4, 5, 6] (by decide) (by decide) (by decide)⟩

/-! ## Characterization of the LDR-to-float promotion -/

theorem n_non_alpha_le (n : Nat) : n_non_alpha n ≤ n := by
  unfold n_non_alpha
  split <;> omega

/-- Color channels of `srgb_int_to_linear_float` go through
`srgb_to_linear`. -/
theorem srgb_getD_color (dst : List ℝ) (src : List Byte) (w h n i c : Nat)
    (hi : i < w * h) (hc : c < n_non_alpha n) (hlen : w * h * n ≤ dst.length) :
    (srgb_int_to_linear_float dst src w h n).getD (i * n + c) 0 =
      srgb_to_linear ((byteAt src (i * n + c) : ℝ) / 255) := by
  have hcn : c < n := lt_of_lt_of_le hc (n_non_alpha_le n)
  apply writeSeq_getD_of_writes
  · exact lt_of_lt_of_le (index_lt hi hcn) hlen
  · refine ⟨(i * n + c, srgb_to_linear ((byteAt src (i * n + c) : ℝ) / 255)),
      List.mem_append_left _ ?_, rfl⟩
    simp only [List.mem_flatMap, List.mem_map, List.mem_range]
    exact ⟨i, hi, c, hc, rfl⟩
  · intro p hp hpi
    rcases List.mem_append.mp hp with hA | hB
    · simp only [List.mem_flatMap, List.mem_map, List.mem_range] at hA
      obtain ⟨i1, hi1, c1, hc1, rfl⟩ := hA
      simp only at hpi ⊢
      obtain ⟨hI, hC⟩ := mul_add_inj (lt_of_lt_of_le hc1 (n_non_alpha_le n)) hcn hpi
      rw [hI, hC]
    · by_cases halpha : n_non_alpha n < n
      · rw [if_pos halpha] at hB
        simp only [List.mem_map, List.mem_range] at hB
        obtain ⟨i1, hi1, rfl⟩ := hB
        simp only at hpi
        obtain ⟨hI, hC⟩ := mul_add_inj (by omega : n - 1 < n) hcn hpi
        omega
      · rw [if_neg halpha] at hB
        exact absurd hB (List.not_mem_nil p)

/-- The last channel of `srgb_int_to_linear_float` (when one is an alpha
channel) is copied as `raw / 255`. -/
theorem srgb_getD_alpha (dst : List ℝ) (src : List Byte) (w h n i : Nat)
    (hi : i < w * h) (halpha : n_non_alpha n < n) (hlen : w * h * n ≤ dst.length) :
    (srgb_int_to_linear_float dst src w h n).getD (i * n + (n - 1)) 0 =
      (byteAt src (i * n + (n - 1)) : ℝ) / 255 := by
  have hn : 0 < n := by omega
  apply writeSeq_getD_of_writes
  · exact lt_of_lt_of_le (index_lt hi (by omega)) hlen
  · refine ⟨(i * n + (n - 1), (byteAt src (i * n + (n - 1)) : ℝ) / 255),
      List.mem_append_right _ ?_, rfl⟩
    rw [if_pos halpha]
    simp only [List.mem_map, List.mem_range]
    exact ⟨i, hi, rfl⟩
  · intro p hp hpi
    rcases List.mem_append.mp hp with hA | hB
    · simp only [List.mem_flatMap, List.mem_map, List.mem_range] at hA
      obtain ⟨i1, hi1, c1, hc1, rfl⟩ := hA
      simp only at hpi
      obtain ⟨hI, hC⟩ := mul_add_inj (lt_of_lt_of_le hc1 (n_non_alpha_le n))
        (by omega : n - 1 < n) hpi
      omega
    · rw [if_pos halpha] at hB
      simp only [List.mem_map, List.mem_range] at hB
      obtain ⟨i1, hi1, rfl⟩ := hB
      simp only at hpi ⊢
      obtain ⟨hI, _⟩ := mul_add_inj (by omega : n - 1 < n) (by omega : n - 1 < n) hpi
      rw [hI]

/-- Every element of `linear_int_to_linear_float` is `raw / 255`. -/
theorem linear_getD (dst : List ℝ) (src : List Byte) (w h n j : Nat)
    (hj : j < w * h * n) (hlen : w * h * n ≤ dst.length) :
    (linear_int_to_linear_float dst src w h n).getD j 0 =
      (byteAt src j : ℝ) / 255 := by
  apply writeSeq_getD_of_writes
  · exact lt_of_lt_of_le hj hlen
  · refine ⟨(j, (byteAt src j : ℝ) / 255), ?_, rfl⟩
    simp only [linearWrites, List.mem_map, List.mem_range]
    exact ⟨j, hj, rfl⟩
  · intro p hp hpi
    simp only [linearWrites, List.mem_map, List.mem_range] at hp
    obtain ⟨j1, hj1, rfl⟩ := hp
    simp only at hpi ⊢
    rw [hpi]

/-- C6: when promoting an sRGB-tagged 8-bit buffer to float, every color
(non-alpha) sample with normalized value `s = raw / 255` is mapped to
`s / 12.92` if `s ≤ 0.04045` and to `((s + 0.055) / 1.055) ^ 2.4`
otherwise; in particular raw value 10 takes the linear branch and raw
value 11 takes the power-law branch, and both branches produce values in
`[0, 1]`. -/
theorem c6_srgb_promotion :
    (∀ (dst : List ℝ) (src : List Byte) (w h n i c : Nat),
        i < w * h → c < n_non_alpha n → w * h * n ≤ dst.length →
        (srgb_int_to_linear_float dst src w h n).getD (i * n + c) 0 =
          (if (byteAt src (i * n + c) : ℝ) / 255 ≤ 0.04045 then
            ((byteAt src (i * n + c) : ℝ) / 255) / 12.92
          else
            (((byteAt src (i * n + c) : ℝ) / 255 + 0.055) / 1.055) ^ (2.4 : ℝ))) ∧
    srgb_to_linear (10 / 255) = ((10 : ℝ) / 255) / 12.92 ∧
    srgb_to_linear (11 / 255) = (((11 : ℝ) / 255 + 0.055) / 1.055) ^ (2.4 : ℝ) ∧
    (∀ s : ℝ, 0 ≤ s → s ≤ 1 → 0 ≤ srgb_to_linear s ∧ srgb_to_linear s ≤ 1) := by
  refine ⟨?_, ?_, ?_, ?_⟩
  · intro dst src w h n i c hi hc hlen
    rw [srgb_getD_color dst src w h n i c hi hc hlen, srgb_to_linear]
  · rw [srgb_to_linear, if_pos (by norm_num : ((10 : ℝ) / 255) ≤ 0.04045)]
  · rw [srgb_to_linear, if_neg (by norm_num : ¬((11 : ℝ) / 255) ≤ 0.04045)]
  · intro s h0 h1
    rw [srgb_to_linear]
    split_ifs with hb
    · constructor
      · exact div_nonneg h0 (by norm_num)
      · rw [div_le_one (by norm_num)]
        linarith
    · constructor
      · exact Real.rpow_nonneg (by positivity) _
      · exact Real.rpow_le_one (by positivity)
          (by rw [div_le_one (by norm_num)]; linarith) (by norm_num)

/-- Witness for C6 at a concrete 1-pixel, 1-channel sRGB buffer and at the
two boundary raw values. -/
theorem c6_srgb_promotion_witness :
    (srgb_int_to_linear_float [0] [(10 : Byte)] 1 1 1).getD (0 * 1 + 0) 0 =
      (if (byteAt [(10 : Byte)] (0 * 1 + 0) : ℝ) / 255 ≤ 0.04045 then
        ((byteAt [(10 : Byte)] (0 * 1 + 0) : ℝ) / 255) / 12.92
      else
        (((byteAt [(10 : Byte)] (0 * 1 + 0) : ℝ) / 255 + 0.055) / 1.055) ^ (2.4 : ℝ)) ∧
    srgb_to_linear (10 / 255) = ((10 : ℝ) / 255) / 12.92 ∧
    srgb_to_linear (11 / 255) = (((11 : ℝ) / 255 + 0.055) / 1.055) ^ (2.4 : ℝ) ∧
    (0 ≤ srgb_to_linear 0 ∧ srgb_to_linear 0 ≤ 1) :=
  ⟨c6_srgb_promotion.1 [0] [(10 : Byte)] 1 1 1 0 0 (by decide) (by decide) (by simp),
    c6_srgb_promotion.2.1, c6_srgb_promotion.2.2.1,
    c6_srgb_promotion.2.2.2 0 (by norm_num) (by norm_num)⟩

/-- C8: during LDR-to-float promotion, when the channel count is 2 or 4
the last channel of every pixel is promoted to `raw / 255` — on the
sRGB-tagged path (`srgb_int_to_linear_float`, independent of the sRGB
transform applied to the other channels) and on the linear-tagged path
alike. -/
theorem c8_alpha_passthrough (dst : List ℝ) (src : List Byte) (w h n i : Nat)
    (hn : n = 2 ∨ n = 4) (hi : i < w * h) (hlen : w * h * n ≤ dst.length) :
    (srgb_int_to_linear_float dst src w h n).getD (i * n + (n - 1)) 0 =
      (byteAt src (i * n + (n - 1)) : ℝ) / 255 ∧
    (linear_int_to_linear_float dst src w h n).getD (i * n + (n - 1)) 0 =
      (byteAt src (i * n + (n - 1)) : ℝ) / 255 := by
  have halpha : n_non_alpha n < n := by
    rcases hn with rfl | rfl <;> decide
  constructor
  · exact srgb_getD_alpha dst src w h n i hi halpha hlen
  · exact linear_getD dst src w h n (i * n + (n - 1)) (index_lt hi (by omega)) hlen

/-- Witness for C8 on a concrete 1-pixel, 2-channel buffer. -/
theorem c8_alpha_passthrough_witness :
    (srgb_int_to_linear_float [0, 0] [(10 : Byte), 20] 1 1 2).getD (0 * 2 + (2 - 1)) 0 =
      (byteAt [(10 : Byte), 20] (0 * 2 + (2 - 1)) : ℝ) / 255 ∧
    (linear_int_to_linear_float [0, 0] [(10 : Byte), 20] 1 1 2).getD (0 * 2 + (2 - 1)) 0 =
      (byteAt [(10 : Byte), 20] (0 * 2 + (2 - 1)) : ℝ) / 255 :=
  c8_alpha_passthrough [0, 0] [(10 : Byte), 20] 1 1 2 0 (Or.inl rfl) (by decide) (by simp)

/-- C5: QOI header validation fails exactly when the buffer is shorter
than the 14-byte header plus the end-of-stream padding length, the magic
does not match, width or height is 0, channels is not 3 or 4, colorspace
is not 0 or 1, or `height >= MAX_PIXELS / width`; otherwise it succeeds
and yields the header's width, height, channels and colorspace. -/
theorem c5_qoi_header_validation (data : List Byte) :
    qoi_decode_header data =
      if data.length < QOI_HEADER_SIZE + QOI_PADDING_SIZE ∨
          qoi_read_32 data 0 ≠ QOI_MAGIC ∨
          qoi_read_32 data 4 = 0 ∨ qoi_read_32 data 8 = 0 ∨
          ¬(byteAt data 12 = 3 ∨ byteAt data 12 = 4) ∨
          ¬(byteAt data 13 = 0 ∨ byteAt data 13 = 1) ∨
          qoi_read_32 data 8 ≥ QOI_PIXELS_MAX / qoi_read_32 data 4 then
        none
      else
        some ⟨qoi_read_32 data 4, qoi_read_32 data 8, byteAt data 12, byteAt data 13⟩ := by
  unfold qoi_decode_header
  generalize QOI_PIXELS_MAX / qoi_read_32 data 4 = q
  split_ifs <;> first | rfl | omega

/-- Helper: the state on exit of an into-buffer call is the state the
loader left, with the flip flag forced back to its entry value. -/
theorem info_buffer_state {α : Type} [Inhabited α]
    (loadT : GState → Eff (Option (LoadResult α)))
    (n_desired_channels : Nat) (dst : List α) (s : GState) :
    (load_from_memory_info_buffer loadT n_desired_channels dst s).state =
      { (loadT { s with flip := false }).state with flip := s.flip } := by
  rw [load_from_memory_info_buffer]
  cases hres : (loadT { s with flip := false }).result with
  | none => simp [hres]
  | some r => by_cases hf : s.flip <;> simp [hres, hf]

/-- C10: both into-buffer entry points restore the process-wide
flip-vertically flag to its entry value before returning, on the success
and the failure path alike, though they clear it around the inner load. -/
theorem c10_flip_flag_restored (env : StbEnv) (data : List Byte)
    (n_desired_channels : Nat) (dstB : List Byte) (dstF : List ℝ) (s : GState) :
    (LoadFromMemoryIntoBuffer env data n_desired_channels dstB s).state.flip = s.flip ∧
    (LoadFFromMemoryIntoBuffer env data n_desired_channels dstF s).state.flip = s.flip := by
  constructor
  · rw [LoadFromMemoryIntoBuffer, info_buffer_state]
  · rw [LoadFFromMemoryIntoBuffer, info_buffer_state]

/-- C4: in into-buffer mode, whenever the underlying decode fails the call
returns false and the caller-supplied destination buffer is returned
untouched — for both the integer and the float entry point. -/
theorem c4_no_partial_writes_on_failure (env : StbEnv) (data : List Byte)
    (n_desired_channels : Nat) (dstB : List Byte) (dstF : List ℝ) (s : GState) :
    ((load_from_memory_u8 env data n_desired_channels { s with flip := false }).result =
        none →
      (LoadFromMemoryIntoBuffer env data n_desired_channels dstB s).ok = false ∧
      (LoadFromMemoryIntoBuffer env data n_desired_channels dstB s).dst = dstB) ∧
    ((load_from_memory_f env data n_desired_channels { s with flip := false }).result =
        none →
      (LoadFFromMemoryIntoBuffer env data n_desired_channels dstF s).ok = false ∧
      (LoadFFromMemoryIntoBuffer env data n_desired_channels dstF s).dst = dstF) := by
  constructor
  · intro hfail
    rw [LoadFromMemoryIntoBuffer, load_from_memory_info_buffer]
    simp [hfail]
  · intro hfail
    rw [LoadFFromMemoryIntoBuffer, load_from_memory_info_buffer]
    simp [hfail]

/-- Witness for C4: on the 4-byte input `qoif` (sniffed as QOI, too short
to decode) both into-buffer entry points fail and leave the destinations
untouched. -/
theorem c4_no_partial_writes_on_failure_witness :
    ((LoadFromMemoryIntoBuffer env0 qoif4 0 [7, 7, 7] ⟨false, false⟩).ok = false ∧
      (LoadFromMemoryIntoBuffer env0 qoif4 0 [7, 7, 7] ⟨false, false⟩).dst = [7, 7, 7]) ∧
    ((LoadFFromMemoryIntoBuffer env0 qoif4 0 [7, 7, 7] ⟨false, false⟩).ok = false ∧
      (LoadFFromMemoryIntoBuffer env0 qoif4 0 [7, 7, 7] ⟨false, false⟩).dst = [7, 7, 7]) := by
  have hu : (load_from_memory_u8 env0 qoif4 0 ⟨false, false⟩).result = none := by decide
  have hf : (load_from_memory_f env0 qoif4 0 ⟨false, false⟩).result = none := by
    rw [load_from_memory_f]
    simp [is_hdr_from_memory, (by decide : is_qoi qoif4 = true), hu]
  exact ⟨(c4_no_partial_writes_on_failure env0 qoif4 0 [7, 7, 7] [7, 7, 7]
      ⟨false, false⟩).1 hu,
    (c4_no_partial_writes_on_failure env0 qoif4 0 [7, 7, 7] [7, 7, 7]
      ⟨false, false⟩).2 hf⟩

/-- Helper: `load_from_memory<unsigned char>` reads but never writes the
process-wide globals. -/
theorem load_u8_state (env : StbEnv) (data : List Byte) (n_desired_channels : Nat)
    (s : GState) : (load_from_memory_u8 env data n_desired_channels s).state = s := by
  rw [load_from_memory_u8]
  by_cases hq : is_qoi data
  · simp only [hq, if_true]
    cases qoi_decode data n_desired_channels with
    | none => rfl
    | some p =>
      obtain ⟨desc, px⟩ := p
      by_cases hf : s.flip <;> simp [hf]
  · simp only [hq, Bool.false_eq_true, if_false]
    cases env.load data n_desired_channels with
    | none => rfl
    | some q =>
      obtain ⟨w, h, c, px⟩ := q
      by_cases hf : s.flip <;> simp [hf]

/-- Helper: `load_from_memory<float>` reads but never writes the
process-wide globals. -/
theorem load_f_state (env : StbEnv) (data : List Byte) (n_desired_channels : Nat)
    (s : GState) : (load_from_memory_f env data n_desired_channels s).state = s := by
  rw [load_from_memory_f]
  by_cases hh : is_hdr_from_memory env data
  · simp only [hh, if_true]
    cases env.loadf data n_desired_channels with
    | none => rfl
    | some q =>
      obtain ⟨w, h, c, px⟩ := q
      by_cases hf : s.flip <;> simp [hf]
  · simp only [hh, Bool.false_eq_true, if_false]
    cases hres : (load_from_memory_u8 env data n_desired_channels s).result with
    | none => simp [hres, load_u8_state]
    | some r => simp [hres, load_u8_state]

/-- C1 (amended): only the header-info query sets the process-wide
last-codec-used flag — to Qoi exactly when the sniffer classifies the
input as QOI, before the attempt can fail; the decode entry points leave
the globals unchanged.  Consequently the failure-reason query returns the
fixed generic string after a failing attempt iff the most recent *info*
query classified its input as QOI. -/
theorem c1_flag_set_only_by_info (env : StbEnv) (data : List Byte)
    (n_desired_channels : Nat) (s : GState) :
    (info_from_memory env data s).2.used_qoi = is_qoi data ∧
    (load_from_memory_u8 env data n_desired_channels s).state = s ∧
    (load_from_memory_f env data n_desired_channels s).state = s ∧
    FailureReason env (info_from_memory env data s).2 =
      (if is_qoi data then "unknown" else env.failure_reason) := by
  have hinfo : (info_from_memory env data s).2.used_qoi = is_qoi data := by
    unfold info_from_memory
    by_cases hq : is_qoi data
    · simp only [hq, if_true]
      cases qoi_decode_header data <;> simp [hq]
    · simp [hq]
  refine ⟨hinfo, load_u8_state env data n_desired_channels s,
    load_f_state env data n_desired_channels s, ?_⟩
  rw [FailureReason, hinfo]

/-- Counterexample to C1 as stated: a failing decode attempt on an input
the sniffer classifies as QOI leaves the last-codec-used flag at Delegate
(its prior value), and the failure-reason query then returns the delegate
codec's text, not the fixed generic string. -/
theorem c1_counterexample :
    is_qoi qoif4 = true ∧
    (load_from_memory_u8 env0 qoif4 0 ⟨false, false⟩).result = none ∧
    (load_from_memory_u8 env0 qoif4 0 ⟨false, false⟩).state.used_qoi = false ∧
    FailureReason env0 (load_from_memory_u8 env0 qoif4 0 ⟨false, false⟩).state =
      "stb delegate error" := by
  decide

/-! ## The QOI path of the 8-bit load -/

/-- `qoi_decode` rejects desired channel counts 1 and 2 outright. -/
theorem qoi_decode_channels_invalid (data : List Byte) (k : Nat) (hk : k = 1 ∨ k = 2) :
    qoi_decode data k = none := by
  rcases hk with rfl | rfl <;> rw [qoi_decode] <;> simp

/-- For desired channel counts 0, 3 and 4, `qoi_decode` succeeds exactly
when the header does, decoding `width * height` pixels at the effective
channel count. -/
theorem qoi_decode_valid (data : List Byte) (k : Nat) (hk : k = 0 ∨ k = 3 ∨ k = 4) :
    qoi_decode data k =
      match qoi_decode_header data with
      | none => none
      | some desc =>
        some (desc, qoi_decode_loop data (data.length - QOI_PADDING_SIZE)
          (if k = 0 then desc.channels else k) (desc.width * desc.height)
          ⟨List.replicate 64 ⟨0, 0, 0, 0⟩, ⟨0, 0, 0, 255⟩, 0, QOI_HEADER_SIZE⟩) := by
  rcases hk with rfl | rfl | rfl <;> rw [qoi_decode] <;>
    cases qoi_decode_header data <;> simp

/-- The 8-bit load fails when `qoi_decode` does, on QOI-classified input. -/
theorem load_u8_qoi_none (env : StbEnv) (data : List Byte) (k : Nat) (s : GState)
    (hq : is_qoi data = true) (hdec : qoi_decode data k = none) :
    (load_from_memory_u8 env data k s).result = none := by
  rw [load_from_memory_u8]
  simp [hq, hdec]

/-- The 8-bit load's result on QOI-classified input, expressed from the
`qoi_decode` output. -/
theorem load_u8_qoi_result (env : StbEnv) (data : List Byte) (k : Nat) (s : GState)
    (hq : is_qoi data = true) (desc : qoi_desc) (px : List Byte)
    (hdec : qoi_decode data k = some (desc, px)) :
    (load_from_memory_u8 env data k s).result =
      (if s.flip then
        some ⟨desc.width, desc.height, desc.channels,
          flip_vertically (List.replicate (desc.width * desc.height *
              (if k = 0 then desc.channels else k)) 0) px desc.width desc.height
            (if k = 0 then desc.channels else k)⟩
      else some ⟨desc.width, desc.height, desc.channels, px⟩) := by
  rw [load_from_memory_u8]
  simp only [hq, if_true, hdec]
  by_cases hf : s.flip <;> simp [hf]

/-- On QOI-classified input, a successful 8-bit decode at desired channel
count 3 or 4 yields a pixel buffer of exactly that many channels. -/
theorem load_u8_qoi_pixels_length (env : StbEnv) (data : List Byte) (k : Nat)
    (s : GState) (r : LoadResult Byte) (hq : is_qoi data = true) (hk : k = 3 ∨ k = 4)
    (hr : (load_from_memory_u8 env data k s).result = some r) :
    r.pixels.length = r.w * r.h * k := by
  cases hdec : qoi_decode data k with
  | none => rw [load_u8_qoi_none env data k s hq hdec] at hr; exact absurd hr (by simp)
  | some p =>
    obtain ⟨desc, px⟩ := p
    have hk0 : k ≠ 0 := by rcases hk with rfl | rfl <;> norm_num
    have hch : (if k = 0 then desc.channels else k) = k := if_neg hk0
    have hlen : px.length = desc.width * desc.height * k := by
      have hv := qoi_decode_valid data k (Or.inr hk)
      rw [hv] at hdec
      cases hhd : qoi_decode_header data with
      | none => rw [hhd] at hdec; exact absurd hdec (by simp)
      | some d =>
        rw [hhd] at hdec
        simp only [Option.some.injEq, Prod.mk.injEq] at hdec
        obtain ⟨hd1, hd2⟩ := hdec
        have h43 : (if (if k = 0 then d.channels else k) = 4 then 4 else 3) = k := by
          rcases hk with rfl | rfl <;> norm_num
        rw [← hd2, qoi_decode_loop_length, h43, hd1]
    rw [load_u8_qoi_result env data k s hq desc px hdec] at hr
    by_cases hf : s.flip
    · rw [if_pos hf] at hr
      have hre := Option.some.inj hr
      subst hre
      simp [flip_vertically, writeSeq_length, hch]
    · rw [if_neg hf] at hr
      have hre := Option.some.inj hr
      subst hre
      simpa using hlen

/-- C2: for every QOI-classified input, a successful integer decode with
desired channel count 0 reports the same channel count as the header-only
info query; and for every desired channel count `k ∈ {1, 2, 3, 4}`, a
successful decode yields a pixel buffer whose channel count equals `k`
(its length is `w * h * k`; for `k ∈ {1, 2}` the QOI decoder never
succeeds, so the statement holds vacuously there). -/
theorem c2_channel_negotiation (env : StbEnv) (data : List Byte) (s t : GState)
    (hq : is_qoi data = true) :
    (∀ r : LoadResult Byte, (load_from_memory_u8 env data 0 s).result = some r →
        ∃ w h n, (info_from_memory env data t).1 = some (w, h, n) ∧
          r.n_channels = n) ∧
    (∀ (k : Nat) (r : LoadResult Byte), (k = 1 ∨ k = 2 ∨ k = 3 ∨ k = 4) →
        (load_from_memory_u8 env data k s).result = some r →
        r.pixels.length = r.w * r.h * k) := by
  constructor
  · intro r hr
    cases hdec : qoi_decode data 0 with
    | none => rw [load_u8_qoi_none env data 0 s hq hdec] at hr; exact absurd hr (by simp)
    | some p =>
      obtain ⟨desc, px⟩ := p
      have hh : qoi_decode_header data = some desc := by
        have hv := qoi_decode_valid data 0 (Or.inl rfl)
        rw [hv] at hdec
        cases hhd : qoi_decode_header data with
        | none => rw [hhd] at hdec; exact absurd hdec (by simp)
        | some d =>
          rw [hhd] at hdec
          simp only [Option.some.injEq, Prod.mk.injEq] at hdec
          rw [hdec.1]
      refine ⟨desc.width, desc.height, desc.channels, ?_, ?_⟩
      · rw [info_from_memory]
        simp [hq, hh]
      · rw [load_u8_qoi_result env data 0 s hq desc px hdec] at hr
        by_cases hf : s.flip
        · rw [if_pos hf] at hr
          have hre := Option.some.inj hr
          subst hre
          rfl
        · rw [if_neg hf] at hr
          have hre := Option.some.inj hr
          subst hre
          rfl
  · intro k r hk hr
    rcases hk with rfl | rfl | hk34
    · rw [load_u8_qoi_none env data 1 s hq
        (qoi_decode_channels_invalid data 1 (Or.inl rfl))] at hr
      exact absurd hr (by simp)
    · rw [load_u8_qoi_none env data 2 s hq
        (qoi_decode_channels_invalid data 2 (Or.inr rfl))] at hr
      exact absurd hr (by simp)
    · exact load_u8_qoi_pixels_length env data k s r hq hk34 hr

/-- Witness for C2 on the concrete QOI file `qoiLin`. -/
theorem c2_channel_negotiation_witness :
    (∃ w h n, (info_from_memory env0 qoiLin ⟨false, false⟩).1 = some (w, h, n) ∧
      qoiR.n_channels = n) ∧
    qoiR.pixels.length = qoiR.w * qoiR.h * 3 :=
  ⟨(c2_channel_negotiation env0 qoiLin ⟨false, false⟩ ⟨false, false⟩ (by decide)).1
      qoiR (by decide),
    (c2_channel_negotiation env0 qoiLin ⟨false, false⟩ ⟨false, false⟩ (by decide)).2
      3 qoiR (by norm_num) (by decide)⟩

/-- C7: for every QOI-classified input whose header colorspace tag is
Linear, a (necessarily LDR-promoting) float decode yields, at every index
of the buffer, exactly `v / 255` where `v` is the corresponding raw byte
of the 8-bit decode — the sRGB transfer curve is never applied. -/
theorem c7_linear_promotion (env : StbEnv) (data : List Byte)
    (n_desired_channels : Nat) (s : GState) (r : LoadResult Byte)
    (hq : is_qoi data = true) (hlin : is_linear_qoi data = true)
    (hu8 : (load_from_memory_u8 env data n_desired_channels s).result = some r) :
    ∃ rf : LoadResult ℝ,
      (load_from_memory_f env data n_desired_channels s).result = some rf ∧
      ∀ i, i < r.w * r.h *
          (if n_desired_channels = 0 then r.n_channels else n_desired_channels) →
        rf.pixels.getD i 0 = (byteAt r.pixels i : ℝ) / 255 := by
  have hhdr : is_hdr_from_memory env data = false := by
    rw [is_hdr_from_memory]
    simp [hq]
  refine ⟨⟨r.w, r.h, r.n_channels,
    linear_int_to_linear_float
      (List.replicate (r.w * r.h *
        (if n_desired_channels = 0 then r.n_channels else n_desired_channels)) 0)
      r.pixels r.w r.h
      (if n_desired_channels = 0 then r.n_channels else n_desired_channels)⟩, ?_, ?_⟩
  · rw [load_from_memory_f]
    simp only [hhdr, Bool.false_eq_true, if_false, hu8, hlin, if_true]
  · intro i hi
    exact linear_getD _ _ _ _ _ i hi (by simp)

/-- Witness for C7 on the concrete linear-tagged QOI file `qoiLin`. -/
theorem c7_linear_promotion_witness :
    ∃ rf : LoadResult ℝ,
      (load_from_memory_f env0 qoiLin 0 ⟨false, false⟩).result = some rf ∧
      ∀ i, i < qoiR.w * qoiR.h * (if 0 = 0 then qoiR.n_channels else 0) →
        rf.pixels.getD i 0 = (byteAt qoiR.pixels i : ℝ) / 255 :=
  c7_linear_promotion env0 qoiLin 0 ⟨false, false⟩ qoiR (by decide) (by decide)
    (by decide)

/-- C3 (refuting evaluation): a succeeding into-buffer call on the
concrete QOI file `qoiLin` returns true with one internal buffer
allocated (the decode temporary) and none freed: the temporary is still
live at exit alongside the caller's destination, so it is not released
before the function returns. -/
theorem c3_temporary_not_released :
    (LoadFromMemoryIntoBuffer env0 qoiLin 0 (List.replicate 3 0) ⟨false, false⟩).ok =
      true ∧
    (LoadFromMemoryIntoBuffer env0 qoiLin 0 (List.replicate 3 0)
      ⟨false, false⟩).allocs = 1 ∧
    (LoadFromMemoryIntoBuffer env0 qoiLin 0 (List.replicate 3 0)
      ⟨false, false⟩).frees = 0 := by
  decide

end StbiSharp
